import Mathlib

/-!
Verification of the `pdm-download` core: the concurrent fetch-and-verify
pipeline in `src/pdm_download/command.py`.

The embedding models:
* `_download_package` (per-record hashing stream writer) as `downloadPackage`
  returning the record's outcome together with the file it wrote, and as a
  step trace `downloadTrace` recording the order of the side effects
  (file open, status check, per-chunk digest update and file write, final
  comparison);
* `_download_packages` (coordinator + reporter) as `downloadPackages`,
  folding the per-record results into the shared run state (filesystem,
  diagnostic lines, success / completed counters, summary line), and as a
  coordinator event trace `coordTrace` (mkdir, task submissions,
  diagnostics, summary).

`hashlib` is external to the repository, so the hash registry is a parameter
(`Hashlib`); a concrete instance `sumHashlib` (hex of the byte sum mod 256,
lowercase like every `hexdigest`) is used for concrete runs.  Bytes are
naturals; network responses are `(status, body)` pairs supplied by a
`String → Nat × List Byte` map standing for HTTP GET.
-/

namespace PdmDownload

/-- A byte of a response body or of a file, as a natural number. -/
abbrev Byte := Nat

/-- The `FileHash` record shape consumed by the core: `{url, hash, file}`.
`file` is optional because the code reads it with
`package.get("file", Link(package["url"]).filename)`. -/
structure Package where
  url : String
  hash : String
  file : Option String
deriving Repr, DecidableEq

/-- The hash registry provided by the host (`hashlib`): which algorithm
names resolve, and the digest an algorithm assigns to a byte sequence. -/
structure Hashlib where
  known : String → Bool
  digestFull : String → List Byte → String

/-- Lowercase hex digit, as `hexdigest` produces. -/
def toHexDigit (n : Nat) : Char :=
  if n < 10 then Char.ofNat (48 + n) else Char.ofNat (87 + n)

/-- Two lowercase hex digits for one byte value. -/
def byteToHex (b : Byte) : String :=
  String.mk [toHexDigit (b / 16 % 16), toHexDigit (b % 16)]

/-- Concrete hash registry used for concrete runs: the single algorithm
`sum8` whose digest is the lowercase hex of the sum of the bytes mod 256. -/
def sumHashlib : Hashlib where
  known := fun a => a == "sum8"
  digestFull := fun _ data => byteToHex (data.foldl (· + ·) 0 % 256)

/-- Python `str.split(sep)` for a one-character separator, on a character
list, accumulating the current field in reverse. -/
def splitCharAux (sep : Char) : List Char → List Char → List String
  | [], acc => [String.mk acc.reverse]
  | c :: cs, acc =>
      if c = sep then String.mk acc.reverse :: splitCharAux sep cs []
      else splitCharAux sep cs (c :: acc)

/-- Python `s.split(sep)` for a one-character separator. -/
def splitChar (sep : Char) (s : String) : List String :=
  splitCharAux sep s.data []

/-- `hash_name, hash_value = package["hash"].split(":")`: succeeds exactly
when splitting on `":"` yields two parts (otherwise Python raises
`ValueError` from the unpacking). -/
def splitHashField (s : String) : Option (String × String) :=
  match splitChar ':' s with
  | [name, value] => some (name, value)
  | _ => none

/-- `unearth.Link(url).filename`, for the plain URLs the core receives:
the part of the URL after the last slash. -/
def linkFilename (url : String) : String :=
  (splitChar '/' url).getLastD url

/-- `httpx` `raise_for_status` passes exactly on 2xx responses. -/
def is2xx (status : Nat) : Bool :=
  decide (200 ≤ status) && decide (status < 300)

/-- Per-record result: the task either returns (Success) or raises, the
exception text becoming the Failure detail. -/
inductive Outcome where
  | success
  | failure (msg : String)
deriving Repr, DecidableEq

/-- Whether an outcome is a success. -/
def Outcome.isSuccess : Outcome → Bool
  | .success => true
  | .failure _ => false

/-- `iter_content(resp, chunk_size)` with explicit fuel (the list length
bounds the number of chunks, so fuel recursion is structural). -/
def chunksOfAux (n : Nat) : Nat → List Byte → List (List Byte)
  | _, [] => []
  | 0, _ :: _ => []
  | fuel + 1, x :: xs => (x :: xs).take n :: chunksOfAux n fuel ((x :: xs).drop n)

/-- The successive chunks, of size `n` each (last one possibly shorter),
that the streaming loop reads from a response body. -/
def chunksOf (n : Nat) (l : List Byte) : List (List Byte) :=
  chunksOfAux n l.length l

/-- The destination filename: `package.get("file", Link(package["url"]).filename)`. -/
def Package.destName (pkg : Package) : String :=
  pkg.file.getD (linkFilename pkg.url)

/-- What `_download_package` leaves behind for one record: its outcome and
the destination file it wrote, if the `open("wb")` was reached
(`none` means the record failed before the file was created). -/
structure PkgResult where
  outcome : Outcome
  written : Option (String × List Byte)
deriving Repr, DecidableEq

/-- `_download_package(project, package, dest)` on a response
`resp = (status, body)` for `package["url"]`:
splits the hash field, resolves the algorithm (`hashlib.new`), opens the
destination file (truncating), checks the status, streams the body in
8192-byte chunks feeding the digest and the file, and finally compares the
hex digest with the declared value, raising `RuntimeError` on mismatch.
The digest is the algorithm applied to the concatenation of the chunks fed
to it.  The file keeps whatever was written at the point of failure. -/
def downloadPackage (H : Hashlib) (resp : Nat × List Byte) (pkg : Package) :
    PkgResult :=
  match splitHashField pkg.hash with
  | none =>
      ⟨.failure "ValueError: not enough values to unpack", none⟩
  | some (name, value) =>
      if H.known name = false then
        ⟨.failure ("ValueError: unsupported hash type " ++ name), none⟩
      else
        let fname := pkg.destName
        if is2xx resp.1 = false then
          ⟨.failure ("HTTPStatusError: status " ++ toString resp.1
            ++ " for url " ++ pkg.url), some (fname, [])⟩
        else
          let actual := H.digestFull name ((chunksOf 8192 resp.2).flatten)
          if actual = value then
            ⟨.success, some (fname, resp.2)⟩
          else
            match pkg.file with
            | some f =>
                ⟨.failure ("Hash value of " ++ f ++ " doesn\x27t match. Expected: "
                  ++ value ++ ", got: " ++ actual), some (fname, resp.2)⟩
            | none =>
                ⟨.failure "KeyError: file", some (fname, resp.2)⟩

/-- The outcome of one record's task (independent of the shared state). -/
def downloadOutcome (H : Hashlib) (net : String → Nat × List Byte)
    (pkg : Package) : Outcome :=
  (downloadPackage H (net pkg.url) pkg).outcome

/-- The diagnostic line the completion callback emits for an outcome:
`f"[error]Error: {future.exception()}"` on failure, nothing on success. -/
def errLineOf : Outcome → Option String
  | .success => none
  | .failure m => some ("[error]Error: " ++ m)

/-- A write of `content` under `name` into the destination directory,
overwriting an existing entry of the same name (`open("wb")`). -/
def writeFile (fs : List (String × List Byte)) (name : String)
    (content : List Byte) : List (String × List Byte) :=
  if fs.any (fun e => e.1 == name) then
    fs.map (fun e => if e.1 == name then (name, content) else e)
  else
    fs ++ [(name, content)]

/-- The shared mutable state of a run: the destination directory contents,
the diagnostic lines already emitted, and the two counters the completion
callback advances (`success_count` and the progress task's completed count). -/
structure RunState where
  fs : List (String × List Byte)
  errorLines : List String
  successCount : Nat
  completed : Nat
deriving Repr, DecidableEq

/-- One record's task running to completion plus its completion callback:
the file write happens inside the task, then the callback either emits the
diagnostic line or increments `success_count`, and always advances the
progress counter by one. -/
def runStep (H : Hashlib) (net : String → Nat × List Byte)
    (st : RunState) (pkg : Package) : RunState :=
  let r := downloadPackage H (net pkg.url) pkg
  { fs := match r.written with
      | some (n, c) => writeFile st.fs n c
      | none => st.fs
    errorLines := st.errorLines ++ (errLineOf r.outcome).toList
    successCount := st.successCount + (if r.outcome.isSuccess then 1 else 0)
    completed := st.completed + 1 }

/-- All submitted tasks run to completion over the initial directory
contents `fs0` (the pool's context manager joins every future). -/
def runFold (H : Hashlib) (net : String → Nat × List Byte)
    (fs0 : List (String × List Byte)) (pkgs : List Package) : RunState :=
  pkgs.foldl (runStep H net) ⟨fs0, [], 0, 0⟩

/-- The final summary line:
`f"[success]{success_count} packages downloaded to {dest}."`. -/
def summaryOf (successCount : Nat) (dest : String) : String :=
  "[success]" ++ toString successCount ++ " packages downloaded to "
    ++ dest ++ "."

/-- Everything a completed run announces: the per-record outcomes, the
final directory contents, the diagnostics, the counters and the summary. -/
structure Run where
  outcomes : List Outcome
  fs : List (String × List Byte)
  errorLines : List String
  successCount : Nat
  completed : Nat
  summary : String
deriving Repr, DecidableEq

/-- `_download_packages(project, packages, dest)`.
`destExists` says whether `dest` already exists, `mkdirOk` whether
`dest.mkdir(parents=True)` would succeed; a failed mkdir propagates as the
run's error before any task is submitted.  Otherwise every record is
processed to an outcome and the summary line is emitted once. -/
def downloadPackages (H : Hashlib) (net : String → Nat × List Byte)
    (destExists mkdirOk : Bool) (dest : String)
    (fs0 : List (String × List Byte)) (pkgs : List Package) :
    Except String Run :=
  if destExists = false && mkdirOk = false then
    Except.error "OSError: cannot create destination directory"
  else
    let st := runFold H net (if destExists then fs0 else []) pkgs
    Except.ok
      { outcomes := pkgs.map (downloadOutcome H net)
        fs := st.fs
        errorLines := st.errorLines
        successCount := st.successCount
        completed := st.completed
        summary := summaryOf st.successCount dest }

/-- Coordinator-level events, in the order the coordinator performs them. -/
inductive CoordEvent where
  | mkdirParents
  | submit (i : Nat)
  | errorLine (msg : String)
  | summaryLine (msg : String)
deriving Repr, DecidableEq

/-- Whether a coordinator event is a task submission. -/
def CoordEvent.isSubmit : CoordEvent → Bool
  | .submit _ => true
  | _ => false

/-- Whether a coordinator event is the summary line. -/
def CoordEvent.isSummary : CoordEvent → Bool
  | .summaryLine _ => true
  | _ => false

/-- The coordinator's event trace: the mkdir (attempted only when the
directory is absent, and fatal when it fails), then one submission per
record, the diagnostic lines, and the single summary line. -/
def coordTrace (H : Hashlib) (net : String → Nat × List Byte)
    (destExists mkdirOk : Bool) (dest : String)
    (fs0 : List (String × List Byte)) (pkgs : List Package) :
    List CoordEvent :=
  (if destExists then [] else [CoordEvent.mkdirParents]) ++
    (if destExists = false && mkdirOk = false then [] else
      (List.range pkgs.length).map CoordEvent.submit ++
        (runFold H net (if destExists then fs0 else []) pkgs).errorLines.map
          CoordEvent.errorLine ++
        [CoordEvent.summaryLine
          (summaryOf (runFold H net (if destExists then fs0 else []) pkgs).successCount
            dest)])

/-- The side-effecting steps `_download_package` performs, in order. -/
inductive Step where
  | splitName (name value : String)
  | newHasher (algo : String)
  | fopen (name : String)
  | statusCheck (status : Nat)
  | hashUpdate (chunk : List Byte)
  | fwrite (chunk : List Byte)
  | fclose
  | finalCompare (expected actual : String)
deriving Repr, DecidableEq

/-- The body of the streaming loop: for each chunk, `hasher.update(chunk)`
and then `fp.write(chunk)`, before the next chunk is read. -/
def streamSteps (chunks : List (List Byte)) : List Step :=
  (chunks.map (fun c => [Step.hashUpdate c, Step.fwrite c])).flatten

/-- The step trace of `_download_package` on response `resp`: it stops at
the first raised exception (bad hash field, unknown algorithm, non-2xx
status), otherwise runs the full streaming loop, closes the file and
performs the final digest comparison as its last step. -/
def downloadTrace (H : Hashlib) (resp : Nat × List Byte) (pkg : Package) :
    List Step :=
  match splitHashField pkg.hash with
  | none => []
  | some (name, value) =>
      Step.splitName name value ::
        (if H.known name = false then [] else
          Step.newHasher name ::
            Step.fopen pkg.destName ::
              Step.statusCheck resp.1 ::
                (if is2xx resp.1 = false then [] else
                  streamSteps (chunksOf 8192 resp.2) ++
                    [Step.fclose,
                      Step.finalCompare value
                        (H.digestFull name ((chunksOf 8192 resp.2).flatten))]))

/-- The bytes fed to the incremental digest along a (partial) trace. -/
def hashedBytes (tr : List Step) : List Byte :=
  (tr.filterMap fun s =>
    match s with
    | .hashUpdate c => some c
    | _ => none).flatten

/-- The bytes written to the destination file along a (partial) trace. -/
def writtenBytes (tr : List Step) : List Byte :=
  (tr.filterMap fun s =>
    match s with
    | .fwrite c => some c
    | _ => none).flatten

/-- Whether a step is part of the streaming loop. -/
def Step.isStream : Step → Bool
  | .hashUpdate _ => true
  | .fwrite _ => true
  | _ => false

/-- Whether a step is the final digest comparison. -/
def Step.isFinalCompare : Step → Bool
  | .finalCompare _ _ => true
  | _ => false

/-- Tallying one outcome: `succeeded` grows on success only, `completed`
always, mirroring the completion callback's counter updates. -/
def tallyStep (st : Nat × Nat) (o : Outcome) : Nat × Nat :=
  (st.1 + (if o.isSuccess then 1 else 0), st.2 + 1)

/-- The successive `(succeeded, completed)` counter states of a run that
tallies the outcomes in the given (arbitrary completion) order. -/
def tallyStates (outs : List Outcome) : List (Nat × Nat) :=
  outs.scanl tallyStep (0, 0)

/-- ASCII lowercasing, to state case-insensitive string comparison. -/
def lowerAscii (s : String) : String :=
  String.mk (s.data.map Char.toLower)

/-- Network of the three-record end-to-end scenario: each URL serves a
one-byte 200 body. -/
def netScenario : String → Nat × List Byte := fun url =>
  if url = "u/a.whl" then (200, [5])
  else if url = "u/b.whl" then (200, [7])
  else (200, [9])

/-- Three records: `a.whl` and `b.whl` declare the digest their bodies
really hash to; `c.whl` declares a wrong digest (`ff` instead of `09`). -/
def pkgsScenario : List Package :=
  [⟨"u/a.whl", "sum8:05", some "a.whl"⟩,
   ⟨"u/b.whl", "sum8:07", some "b.whl"⟩,
   ⟨"u/c.whl", "sum8:ff", some "c.whl"⟩]

/-- A batch whose second record names an algorithm the registry does not
resolve (`md5` is not in `sumHashlib`). -/
def pkgsBadAlgo : List Package :=
  [⟨"u/a.whl", "sum8:05", some "a.whl"⟩,
   ⟨"u/x.whl", "md5:00", some "x.whl"⟩]

section ChunkLemmas

theorem chunksOfAux_nil (n fuel : Nat) : chunksOfAux n fuel [] = [] := by
  cases fuel <;> rfl

theorem chunksOfAux_flatten (n : Nat) (hn : 0 < n) :
    ∀ (fuel : Nat) (l : List Byte), l.length ≤ fuel →
      (chunksOfAux n fuel l).flatten = l := by
  intro fuel
  induction fuel with
  | zero =>
      intro l hl
      cases l with
      | nil => rfl
      | cons x xs => simp at hl
  | succ fuel ih =>
      intro l hl
      cases l with
      | nil => rfl
      | cons x xs =>
          simp only [chunksOfAux, List.flatten_cons]
          rw [ih]
          · exact List.take_append_drop n (x :: xs)
          · simp only [List.length_drop, List.length_cons] at *
            omega

theorem chunksOf_flatten (n : Nat) (hn : 0 < n) (l : List Byte) :
    (chunksOf n l).flatten = l :=
  chunksOfAux_flatten n hn l.length l le_rfl

theorem chunksOfAux_mem_length (n : Nat) :
    ∀ (fuel : Nat) (l : List Byte), ∀ c ∈ chunksOfAux n fuel l,
      c.length ≤ n := by
  intro fuel
  induction fuel with
  | zero =>
      intro l c hc
      cases l <;> simp [chunksOfAux] at hc
  | succ fuel ih =>
      intro l c hc
      cases l with
      | nil => simp [chunksOfAux] at hc
      | cons x xs =>
          simp only [chunksOfAux, List.mem_cons] at hc
          rcases hc with rfl | hc
          · simp
          · exact ih _ c hc

theorem chunksOf_mem_length (n : Nat) (l : List Byte) :
    ∀ c ∈ chunksOf n l, c.length ≤ n :=
  chunksOfAux_mem_length n l.length l

theorem chunksOfAux_getD_length (n : Nat) (hn : 0 < n) :
    ∀ (fuel : Nat) (l : List Byte) (i : Nat), l.length ≤ fuel →
      i + 1 < (chunksOfAux n fuel l).length →
      ((chunksOfAux n fuel l).getD i []).length = n := by
  intro fuel
  induction fuel with
  | zero =>
      intro l i hl hi
      cases l <;> simp [chunksOfAux] at hi
  | succ fuel ih =>
      intro l i hl hi
      cases l with
      | nil => simp [chunksOfAux] at hi
      | cons x xs =>
          simp only [chunksOfAux, List.length_cons] at hi
          cases i with
          | zero =>
              have htail : chunksOfAux n fuel ((x :: xs).drop n) ≠ [] := by
                intro hcon
                rw [hcon] at hi
                simp at hi
              have hdrop : (x :: xs).drop n ≠ [] := by
                intro hcon
                rw [hcon, chunksOfAux_nil] at htail
                exact htail rfl
              have hlen : n < (x :: xs).length := by
                by_contra hle
                exact hdrop (List.drop_eq_nil_of_le (Nat.le_of_not_lt hle))
              simp only [chunksOfAux, List.getD_cons_zero, List.length_take]
              omega
          | succ i =>
              simp only [chunksOfAux, List.getD_cons_succ]
              apply ih _ i
              · simp only [List.length_drop, List.length_cons] at *
                omega
              · omega

theorem chunksOf_getD_length (n : Nat) (hn : 0 < n) (l : List Byte) (i : Nat)
    (hi : i + 1 < (chunksOf n l).length) :
    ((chunksOf n l).getD i []).length = n :=
  chunksOfAux_getD_length n hn l.length l i le_rfl hi

end ChunkLemmas

section PrefixLemmas

theorem isPrefix_append_left {α : Type} (c : List α) {l₁ l₂ : List α}
    (h : l₁ <+: l₂) : c ++ l₁ <+: c ++ l₂ := by
  obtain ⟨t, ht⟩ := h
  exact ⟨t, by rw [List.append_assoc, ht]⟩

theorem isPrefix_split {α : Type} :
    ∀ (a : List α) {pre b : List α}, pre <+: a ++ b →
      pre <+: a ∨ ∃ q, pre = a ++ q ∧ q <+: b := by
  intro a
  induction a with
  | nil =>
      intro pre b h
      right
      exact ⟨pre, by simp, by simpa using h⟩
  | cons x a ih =>
      intro pre b h
      cases pre with
      | nil =>
          left
          exact ⟨x :: a, rfl⟩
      | cons y pre =>
          obtain ⟨t, ht⟩ := h
          simp only [List.cons_append, List.cons.injEq] at ht
          obtain ⟨rfl, h2⟩ := ht
          rcases ih ⟨t, h2⟩ with hc | ⟨q, rfl, hq⟩
          · left
            obtain ⟨u, hu⟩ := hc
            exact ⟨u, by rw [List.cons_append, hu]⟩
          · right
            exact ⟨q, rfl, hq⟩

theorem isPrefix_cons_elim {α : Type} {pre : List α} {x : α} {l : List α}
    (h : pre <+: x :: l) : pre = [] ∨ ∃ q, pre = x :: q ∧ q <+: l := by
  cases pre with
  | nil => exact Or.inl rfl
  | cons y pre =>
      obtain ⟨t, ht⟩ := h
      simp only [List.cons_append, List.cons.injEq] at ht
      obtain ⟨rfl, h2⟩ := ht
      exact Or.inr ⟨pre, rfl, ⟨t, h2⟩⟩

theorem isPrefix_nil_elim {α : Type} {pre : List α} (h : pre <+: []) :
    pre = [] := by
  obtain ⟨t, ht⟩ := h
  exact List.append_eq_nil.mp ht |>.1

end PrefixLemmas

section TraceLemmas

theorem hashedBytes_nil : hashedBytes [] = [] := rfl

theorem writtenBytes_nil : writtenBytes [] = [] := rfl

theorem hashedBytes_cons (s : Step) (tr : List Step) :
    hashedBytes (s :: tr) =
      (match s with | .hashUpdate c => c | _ => []) ++ hashedBytes tr := by
  cases s <;> simp [hashedBytes, List.filterMap_cons]

theorem writtenBytes_cons (s : Step) (tr : List Step) :
    writtenBytes (s :: tr) =
      (match s with | .fwrite c => c | _ => []) ++ writtenBytes tr := by
  cases s <;> simp [writtenBytes, List.filterMap_cons]

theorem hashedBytes_append (a b : List Step) :
    hashedBytes (a ++ b) = hashedBytes a ++ hashedBytes b := by
  simp [hashedBytes, List.filterMap_append]

theorem writtenBytes_append (a b : List Step) :
    writtenBytes (a ++ b) = writtenBytes a ++ writtenBytes b := by
  simp [writtenBytes, List.filterMap_append]

theorem noStream_bytes_nil :
    ∀ {tr : List Step}, (∀ s ∈ tr, s.isStream = false) →
      hashedBytes tr = [] ∧ writtenBytes tr = [] := by
  intro tr
  induction tr with
  | nil => intro _; exact ⟨rfl, rfl⟩
  | cons s tr ih =>
      intro h
      have hs := h s (List.mem_cons_self s tr)
      have ht := ih fun x hx => h x (List.mem_cons_of_mem s hx)
      cases s <;> simp [Step.isStream] at hs <;>
        simp [hashedBytes_cons, writtenBytes_cons, ht.1, ht.2]

theorem streamSteps_nil : streamSteps [] = [] := rfl

theorem streamSteps_cons (c : List Byte) (cs : List (List Byte)) :
    streamSteps (c :: cs) =
      Step.hashUpdate c :: Step.fwrite c :: streamSteps cs := by
  simp [streamSteps]

theorem streamSteps_hashedBytes (chunks : List (List Byte)) :
    hashedBytes (streamSteps chunks) = chunks.flatten := by
  induction chunks with
  | nil => rfl
  | cons c cs ih =>
      rw [streamSteps_cons]
      simp [hashedBytes_cons, ih]

theorem streamSteps_writtenBytes (chunks : List (List Byte)) :
    writtenBytes (streamSteps chunks) = chunks.flatten := by
  induction chunks with
  | nil => rfl
  | cons c cs ih =>
      rw [streamSteps_cons]
      simp [writtenBytes_cons, ih]

theorem streamSteps_no_finalCompare (chunks : List (List Byte)) :
    ∀ s ∈ streamSteps chunks, s.isFinalCompare = false := by
  induction chunks with
  | nil => intro s hs; simp [streamSteps_nil] at hs
  | cons c cs ih =>
      intro s hs
      rw [streamSteps_cons] at hs
      simp only [List.mem_cons] at hs
      rcases hs with rfl | rfl | hs
      · rfl
      · rfl
      · exact ih s hs

theorem streamSteps_discipline :
    ∀ (chunks : List (List Byte)) (pre : List Step),
      pre <+: streamSteps chunks →
        writtenBytes pre <+: hashedBytes pre ∧
          hashedBytes pre <+: chunks.flatten := by
  intro chunks
  induction chunks with
  | nil =>
      intro pre h
      obtain rfl := isPrefix_nil_elim (by simpa [streamSteps_nil] using h)
      exact ⟨⟨[], rfl⟩, ⟨[], by simp [hashedBytes_nil]⟩⟩
  | cons c cs ih =>
      intro pre h
      rw [streamSteps_cons] at h
      rcases isPrefix_cons_elim h with rfl | ⟨q, rfl, hq⟩
      · exact ⟨⟨[], rfl⟩, ⟨(c :: cs).flatten, by simp [hashedBytes_nil]⟩⟩
      · rcases isPrefix_cons_elim hq with rfl | ⟨q', rfl, hq'⟩
        · have h1 : writtenBytes [Step.hashUpdate c] = [] := by
            simp [writtenBytes_cons, writtenBytes_nil]
          have h2 : hashedBytes [Step.hashUpdate c] = c := by
            simp [hashedBytes_cons, hashedBytes_nil]
          rw [h1, h2]
          exact ⟨⟨c, by simp⟩, ⟨cs.flatten, by simp⟩⟩
        · obtain ⟨ih1, ih2⟩ := ih q' hq'
          have h1 : writtenBytes (Step.hashUpdate c :: Step.fwrite c :: q') =
              c ++ writtenBytes q' := by
            simp [writtenBytes_cons]
          have h2 : hashedBytes (Step.hashUpdate c :: Step.fwrite c :: q') =
              c ++ hashedBytes q' := by
            simp [hashedBytes_cons]
          rw [h1, h2]
          constructor
          · exact isPrefix_append_left c ih1
          · have : c ++ hashedBytes q' <+: c ++ cs.flatten :=
              isPrefix_append_left c ih2
            simpa using this

end TraceLemmas

section RunLemmas

theorem foldl_runStep_errorLines (H : Hashlib) (net : String → Nat × List Byte) :
    ∀ (pkgs : List Package) (st : RunState),
      (pkgs.foldl (runStep H net) st).errorLines =
        st.errorLines ++ (pkgs.map (downloadOutcome H net)).filterMap errLineOf := by
  intro pkgs
  induction pkgs with
  | nil => intro st; simp
  | cons p t ih =>
      intro st
      simp only [List.foldl_cons, List.map_cons, List.filterMap_cons]
      rw [ih]
      cases h : errLineOf (downloadOutcome H net p) with
      | none =>
          simp [runStep, downloadOutcome] at h ⊢
          rw [h]
          simp
      | some m =>
          simp [runStep, downloadOutcome] at h ⊢
          rw [h]
          simp

theorem foldl_runStep_successCount (H : Hashlib) (net : String → Nat × List Byte) :
    ∀ (pkgs : List Package) (st : RunState),
      (pkgs.foldl (runStep H net) st).successCount =
        st.successCount + (pkgs.map (downloadOutcome H net)).countP Outcome.isSuccess := by
  intro pkgs
  induction pkgs with
  | nil => intro st; simp
  | cons p t ih =>
      intro st
      simp only [List.foldl_cons, List.map_cons, List.countP_cons]
      rw [ih]
      simp only [runStep, downloadOutcome]
      generalize (if (downloadPackage H (net p.url) p).outcome.isSuccess = true then 1 else 0) = k
      omega

theorem foldl_runStep_completed (H : Hashlib) (net : String → Nat × List Byte) :
    ∀ (pkgs : List Package) (st : RunState),
      (pkgs.foldl (runStep H net) st).completed = st.completed + pkgs.length := by
  intro pkgs
  induction pkgs with
  | nil => intro st; simp
  | cons p t ih =>
      intro st
      simp only [List.foldl_cons, List.length_cons]
      rw [ih]
      simp only [runStep]
      omega

theorem runFold_errorLines (H : Hashlib) (net : String → Nat × List Byte)
    (fs0 : List (String × List Byte)) (pkgs : List Package) :
    (runFold H net fs0 pkgs).errorLines =
      (pkgs.map (downloadOutcome H net)).filterMap errLineOf := by
  unfold runFold
  rw [foldl_runStep_errorLines]
  rfl

theorem runFold_successCount (H : Hashlib) (net : String → Nat × List Byte)
    (fs0 : List (String × List Byte)) (pkgs : List Package) :
    (runFold H net fs0 pkgs).successCount =
      (pkgs.map (downloadOutcome H net)).countP Outcome.isSuccess := by
  unfold runFold
  rw [foldl_runStep_successCount]
  simp

theorem runFold_completed (H : Hashlib) (net : String → Nat × List Byte)
    (fs0 : List (String × List Byte)) (pkgs : List Package) :
    (runFold H net fs0 pkgs).completed = pkgs.length := by
  unfold runFold
  rw [foldl_runStep_completed]
  simp

end RunLemmas

section TallyLemmas

theorem tally_invariant :
    ∀ (outs : List Outcome) (s : Nat × Nat) (total : Nat),
      s.1 ≤ s.2 → s.2 + outs.length ≤ total →
      ∀ p ∈ outs.scanl tallyStep s, p.1 ≤ p.2 ∧ p.2 ≤ total := by
  intro outs
  induction outs with
  | nil =>
      intro s total h1 h2 p hp
      simp only [List.scanl_nil, List.mem_singleton] at hp
      subst hp
      simp at h2
      exact ⟨h1, h2⟩
  | cons o t ih =>
      intro s total h1 h2 p hp
      simp only [List.scanl_cons, List.singleton_append, List.mem_cons] at hp
      rcases hp with rfl | hp
      · constructor
        · exact h1
        · simp only [List.length_cons] at h2
          omega
      · apply ih (tallyStep s o) total _ _ p hp
        · rcases o with _ | m <;> simp [tallyStep, Outcome.isSuccess] <;> omega
        · simp only [tallyStep, List.length_cons] at h2 ⊢
          omega

theorem scanl_tally_getLastD :
    ∀ (outs : List Outcome) (s d : Nat × Nat),
      (outs.scanl tallyStep s).getLastD d = outs.foldl tallyStep s := by
  intro outs
  induction outs with
  | nil => intro s d; rfl
  | cons o t ih =>
      intro s d
      simp only [List.scanl_cons, List.singleton_append, List.getLastD_cons,
        List.foldl_cons]
      exact ih (tallyStep s o) s

theorem foldl_tallyStep :
    ∀ (outs : List Outcome) (s : Nat × Nat),
      outs.foldl tallyStep s = (s.1 + outs.countP Outcome.isSuccess, s.2 + outs.length) := by
  intro outs
  induction outs with
  | nil => intro s; simp
  | cons o t ih =>
      intro s
      simp only [List.foldl_cons, List.countP_cons, List.length_cons]
      rw [ih]
      simp only [tallyStep, Prod.ext_iff]
      generalize (if o.isSuccess = true then 1 else 0) = k
      constructor <;> omega

end TallyLemmas

section DownloadCharacterization

theorem downloadTrace_eq (H : Hashlib) (s : Nat) (body : List Byte)
    (pkg : Package) (n v : String)
    (h1 : splitHashField pkg.hash = some (n, v)) (h2 : H.known n = true)
    (h3 : is2xx s = true) :
    downloadTrace H (s, body) pkg =
      [Step.splitName n v, Step.newHasher n, Step.fopen pkg.destName,
          Step.statusCheck s] ++
        streamSteps (chunksOf 8192 body) ++
        [Step.fclose, Step.finalCompare v (H.digestFull n body)] := by
  unfold downloadTrace
  rw [h1]
  have hb : (chunksOf 8192 ((s, body).2)).flatten = body :=
    chunksOf_flatten 8192 (by omega) body
  simp [h2, h3, hb]

theorem downloadPackage_success_iff (H : Hashlib) (s : Nat) (body : List Byte)
    (pkg : Package) (n v : String)
    (h1 : splitHashField pkg.hash = some (n, v)) (h2 : H.known n = true)
    (h3 : is2xx s = true) :
    (downloadPackage H (s, body) pkg).outcome = Outcome.success ↔
      H.digestFull n body = v := by
  unfold downloadPackage
  rw [h1]
  have hb : (chunksOf 8192 ((s, body).2)).flatten = body :=
    chunksOf_flatten 8192 (by omega) body
  simp only [h2, h3, hb, Bool.true_eq_false, if_false]
  by_cases hd : H.digestFull n body = v
  · simp [hd]
  · rcases hf : pkg.file with _ | f <;> simp [hd, hf]

theorem downloadPackage_mismatch (H : Hashlib) (s : Nat) (body : List Byte)
    (pkg : Package) (n v f : String)
    (h1 : splitHashField pkg.hash = some (n, v)) (h2 : H.known n = true)
    (h3 : is2xx s = true) (h4 : pkg.file = some f)
    (h5 : H.digestFull n body ≠ v) :
    downloadPackage H (s, body) pkg =
      ⟨Outcome.failure ("Hash value of " ++ f ++ " doesn\x27t match. Expected: "
          ++ v ++ ", got: " ++ H.digestFull n body),
        some (f, body)⟩ := by
  unfold downloadPackage
  rw [h1]
  have hb : (chunksOf 8192 ((s, body).2)).flatten = body :=
    chunksOf_flatten 8192 (by omega) body
  have hd : pkg.destName = f := by
    unfold Package.destName
    rw [h4]
    rfl
  simp [h2, h3, hb, h4, h5, hd]

theorem downloadPackage_badStatus (H : Hashlib) (s : Nat) (body : List Byte)
    (pkg : Package) (n v : String)
    (h1 : splitHashField pkg.hash = some (n, v)) (h2 : H.known n = true)
    (h3 : is2xx s = false) :
    downloadPackage H (s, body) pkg =
      ⟨Outcome.failure ("HTTPStatusError: status " ++ toString s
          ++ " for url " ++ pkg.url),
        some (pkg.destName, [])⟩ ∧
      downloadTrace H (s, body) pkg =
        [Step.splitName n v, Step.newHasher n, Step.fopen pkg.destName,
          Step.statusCheck s] := by
  constructor
  · unfold downloadPackage
    rw [h1]
    simp [h2, h3]
  · unfold downloadTrace
    rw [h1]
    simp [h2, h3]

theorem downloadPackage_badAlgo (H : Hashlib) (resp : Nat × List Byte)
    (pkg : Package) (n v : String)
    (h1 : splitHashField pkg.hash = some (n, v)) (h2 : H.known n = false) :
    downloadPackage H resp pkg =
      ⟨Outcome.failure ("ValueError: unsupported hash type " ++ n), none⟩ := by
  unfold downloadPackage
  rw [h1]
  simp [h2]

theorem head4_noStream (n v d : String) (st : Nat) :
    ∀ x ∈ [Step.splitName n v, Step.newHasher n, Step.fopen d,
        Step.statusCheck st], x.isStream = false := by
  intro x hx
  simp only [List.mem_cons, List.not_mem_nil, or_false] at hx
  rcases hx with rfl | rfl | rfl | rfl <;> rfl

theorem tail2_noStream (e a : String) :
    ∀ x ∈ [Step.fclose, Step.finalCompare e a], x.isStream = false := by
  intro x hx
  simp only [List.mem_cons, List.not_mem_nil, or_false] at hx
  rcases hx with rfl | rfl <;> rfl

theorem head4_noFinalCompare (n v d : String) (st : Nat) :
    ∀ x ∈ [Step.splitName n v, Step.newHasher n, Step.fopen d,
        Step.statusCheck st], x.isFinalCompare = false := by
  intro x hx
  simp only [List.mem_cons, List.not_mem_nil, or_false] at hx
  rcases hx with rfl | rfl | rfl | rfl <;> rfl

theorem downloadTrace_discipline (H : Hashlib) (s : Nat) (body : List Byte)
    (pkg : Package) (n v : String)
    (h1 : splitHashField pkg.hash = some (n, v)) (h2 : H.known n = true)
    (h3 : is2xx s = true) :
    ∀ pre, pre <+: downloadTrace H (s, body) pkg →
      writtenBytes pre <+: hashedBytes pre ∧ writtenBytes pre <+: body := by
  intro pre hpre
  rw [downloadTrace_eq H s body pkg n v h1 h2 h3, List.append_assoc] at hpre
  have hfl : (chunksOf 8192 body).flatten = body :=
    chunksOf_flatten 8192 (by omega) body
  rcases isPrefix_split _ hpre with hA | ⟨q, rfl, hq⟩
  · obtain ⟨hh, hw⟩ :=
      noStream_bytes_nil fun x hx =>
        head4_noStream n v pkg.destName s x (hA.sublist.subset hx)
    rw [hh, hw]
    exact ⟨⟨[], rfl⟩, ⟨body, rfl⟩⟩
  · obtain ⟨hhA, hwA⟩ :=
      noStream_bytes_nil (head4_noStream n v pkg.destName s)
    rcases isPrefix_split _ hq with hS | ⟨r, rfl, hr⟩
    · obtain ⟨d1, d2⟩ := streamSteps_discipline (chunksOf 8192 body) q hS
      rw [hashedBytes_append, writtenBytes_append, hhA, hwA]
      simp only [List.nil_append]
      rw [hfl] at d2
      exact ⟨d1, (d1.trans d2)⟩
    · obtain ⟨hhr, hwr⟩ :=
        noStream_bytes_nil fun x hx =>
          tail2_noStream v (H.digestFull n body) x (hr.sublist.subset hx)
      rw [← List.append_assoc, hashedBytes_append, writtenBytes_append,
        hashedBytes_append, writtenBytes_append, hhA, hwA, hhr, hwr,
        streamSteps_hashedBytes, streamSteps_writtenBytes, hfl]
      simp only [List.nil_append, List.append_nil]
      exact ⟨⟨[], by simp⟩, ⟨[], by simp⟩⟩

theorem downloadTrace_no_mid_finalCompare (H : Hashlib) (s : Nat)
    (body : List Byte) (pkg : Package) (n v : String)
    (h1 : splitHashField pkg.hash = some (n, v)) (h2 : H.known n = true)
    (h3 : is2xx s = true) :
    ∀ pre, pre <+: downloadTrace H (s, body) pkg →
      pre ≠ downloadTrace H (s, body) pkg →
      ∀ e a, Step.finalCompare e a ∉ pre := by
  intro pre hpre hne e a hmem
  rw [downloadTrace_eq H s body pkg n v h1 h2 h3] at hpre hne
  have hsplit :
      [Step.splitName n v, Step.newHasher n, Step.fopen pkg.destName,
          Step.statusCheck s] ++
        streamSteps (chunksOf 8192 body) ++
        [Step.fclose, Step.finalCompare v (H.digestFull n body)] =
      ([Step.splitName n v, Step.newHasher n, Step.fopen pkg.destName,
          Step.statusCheck s] ++
        streamSteps (chunksOf 8192 body) ++ [Step.fclose]) ++
        [Step.finalCompare v (H.digestFull n body)] := by
    simp
  rw [hsplit] at hpre hne
  obtain ⟨t, ht⟩ := hpre
  have hpreC : pre <+:
      [Step.splitName n v, Step.newHasher n, Step.fopen pkg.destName,
          Step.statusCheck s] ++
        streamSteps (chunksOf 8192 body) ++ [Step.fclose] := by
    cases t with
    | nil =>
        exact absurd (by simpa using ht) hne
    | cons y t' =>
        apply List.prefix_of_prefix_length_le ⟨y :: t', ht⟩ ⟨_, rfl⟩
        have := congrArg List.length ht
        simp only [List.length_append, List.length_cons, List.length_nil]
          at this ⊢
        omega
  have hx := hpreC.sublist.subset hmem
  simp only [List.append_assoc, List.mem_append] at hx
  rcases hx with hx | hx | hx
  · have := head4_noFinalCompare n v pkg.destName s _ hx
    simp [Step.isFinalCompare] at this
  · have := streamSteps_no_finalCompare (chunksOf 8192 body) _ hx
    simp [Step.isFinalCompare] at this
  · simp at hx

end DownloadCharacterization

/-- C1 (counterexample): the declared digest `"1A"` and the computed digest
`"1a"` are equal up to letter case, yet the comparison in
`_download_package` fails the record: the comparison is not
case-insensitive. -/
theorem c1_case_insensitive_counterexample :
    lowerAscii "1A" = lowerAscii (sumHashlib.digestFull "sum8" [26]) ∧
    sumHashlib.digestFull "sum8" [26] = "1a" ∧
    (downloadPackage sumHashlib (200, [26])
        ⟨"u/p.bin", "sum8:1A", some "p.bin"⟩).outcome ≠ Outcome.success := by
  refine ⟨rfl, rfl, ?_⟩
  decide

/-- C1 (amended): after the stream ends, `_download_package` finalizes the
digest and compares its hex representation to the record's declared digest
value with exact, case-sensitive string equality: the record succeeds if
and only if the two strings are equal as written. -/
theorem c1_comparison_case_sensitive (H : Hashlib) (s : Nat)
    (body : List Byte) (pkg : Package) (n v : String)
    (h1 : splitHashField pkg.hash = some (n, v)) (h2 : H.known n = true)
    (h3 : is2xx s = true) :
    (downloadPackage H (s, body) pkg).outcome = Outcome.success ↔
      H.digestFull n body = v :=
  downloadPackage_success_iff H s body pkg n v h1 h2 h3

/-- C1 witness: the amended theorem at a concrete matching record. -/
theorem c1_comparison_case_sensitive_witness :
    (splitHashField "sum8:05" = some ("sum8", "05") ∧
      sumHashlib.known "sum8" = true ∧ is2xx 200 = true) ∧
    (downloadPackage sumHashlib (200, [5])
        ⟨"u/a.whl", "sum8:05", some "a.whl"⟩).outcome = Outcome.success :=
  ⟨⟨rfl, rfl, rfl⟩,
    (c1_comparison_case_sensitive sumHashlib 200 [5]
      ⟨"u/a.whl", "sum8:05", some "a.whl"⟩ "sum8" "05" rfl rfl rfl).mpr rfl⟩

/-- C2 (counterexample): in the three-record scenario (two records whose
bodies hash to their declared digests, one whose declared digest is wrong)
the run does produce 2 successes, 1 diagnostic line and a summary reporting
2 packages downloaded — but the destination directory holds 3 entries, not
2: the mismatched record's file is fully written before the hash check. -/
theorem c2_scenario_counterexample :
    (sumHashlib.digestFull "sum8" [5] = "05" ∧
      sumHashlib.digestFull "sum8" [7] = "07" ∧
      sumHashlib.digestFull "sum8" [9] ≠ "ff") ∧
    ((downloadPackages sumHashlib netScenario true true "dest" []
          pkgsScenario).toOption.map fun r =>
        (r.successCount, r.errorLines.length, r.summary, r.fs.length)) =
      some (2, 1, "[success]2 packages downloaded to dest.", 3) ∧
    ¬ ((downloadPackages sumHashlib netScenario true true "dest" []
          pkgsScenario).toOption.map fun r => r.fs.length) = some 2 := by
  refine ⟨⟨rfl, rfl, ?_⟩, rfl, ?_⟩ <;> decide

/-- C2 (amended): the three-record run yields exactly the two matching
files plus the fully-written mismatched file (3 directory entries), one
diagnostic line, and the summary reporting 2 packages downloaded. -/
theorem c2_scenario_amended :
    downloadPackages sumHashlib netScenario true true "dest" [] pkgsScenario =
      Except.ok
        { outcomes := [Outcome.success, Outcome.success,
            Outcome.failure
              "Hash value of c.whl doesn\x27t match. Expected: ff, got: 09"]
          fs := [("a.whl", [5]), ("b.whl", [7]), ("c.whl", [9])]
          errorLines :=
            ["[error]Error: Hash value of c.whl doesn\x27t match. Expected: ff, got: 09"]
          successCount := 2
          completed := 3
          summary := "[success]2 packages downloaded to dest." } ∧
    (sumHashlib.digestFull "sum8" [5] = "05" ∧
      sumHashlib.digestFull "sum8" [7] = "07" ∧
      sumHashlib.digestFull "sum8" [9] ≠ "ff") := by
  refine ⟨rfl, rfl, rfl, ?_⟩
  decide

/-- C3: a run over N records produces exactly N outcomes, one per record;
tallied in any completion order, the counters satisfy
`0 ≤ succeeded ≤ completed ≤ total` at every intermediate state, the final
state has `completed = total = N`, and the coordinator's own counters agree
when it returns. -/
theorem c3_outcomes_and_counters (H : Hashlib) (net : String → Nat × List Byte)
    (pkgs : List Package) (fs0 : List (String × List Byte))
    (outs : List Outcome)
    (hperm : outs.Perm (pkgs.map (downloadOutcome H net))) :
    outs.length = pkgs.length ∧
    (∀ i, i < pkgs.length →
      (pkgs.map (downloadOutcome H net)).getD i (Outcome.failure "") =
        downloadOutcome H net (pkgs.getD i ⟨"", "", none⟩)) ∧
    (∀ p ∈ tallyStates outs, 0 ≤ p.1 ∧ p.1 ≤ p.2 ∧ p.2 ≤ pkgs.length) ∧
    (tallyStates outs).getLastD (0, 0) =
      (outs.countP Outcome.isSuccess, pkgs.length) ∧
    (runFold H net fs0 pkgs).completed = pkgs.length ∧
    (runFold H net fs0 pkgs).successCount =
      (pkgs.map (downloadOutcome H net)).countP Outcome.isSuccess := by
  have hlen : outs.length = pkgs.length := by
    rw [hperm.length_eq, List.length_map]
  refine ⟨hlen, ?_, ?_, ?_, runFold_completed H net fs0 pkgs,
    runFold_successCount H net fs0 pkgs⟩
  · intro i hi
    rw [List.getD_eq_getElem _ _ (by simpa using hi), List.getElem_map,
      List.getD_eq_getElem _ _ hi]
  · intro p hp
    have h := tally_invariant outs (0, 0) pkgs.length (by simp)
      (by simp [hlen]) p hp
    exact ⟨Nat.zero_le _, h.1, h.2⟩
  · unfold tallyStates
    rw [scanl_tally_getLastD, foldl_tallyStep]
    simp [hlen]

/-- C3 witness: a permuted completion order of the three-record scenario. -/
theorem c3_outcomes_and_counters_witness :
    ([Outcome.failure "Hash value of c.whl doesn\x27t match. Expected: ff, got: 09",
        Outcome.success, Outcome.success].Perm
      (pkgsScenario.map (downloadOutcome sumHashlib netScenario))) ∧
    (runFold sumHashlib netScenario [] pkgsScenario).completed =
      pkgsScenario.length :=
  ⟨by decide,
    (c3_outcomes_and_counters sumHashlib netScenario pkgsScenario []
      [Outcome.failure "Hash value of c.whl doesn\x27t match. Expected: ff, got: 09",
        Outcome.success, Outcome.success] (by decide)).2.2.2.2.1⟩

/-- C4: a record whose hash field names an algorithm the registry cannot
resolve gets a per-record Failure with exactly one diagnostic line, the
coordinator still returns normally, and every other record's outcome is the
same as if it were processed alone. -/
theorem c4_unknown_algorithm_isolated (H : Hashlib)
    (net : String → Nat × List Byte) (dest : String)
    (fs0 : List (String × List Byte)) (pkgs : List Package)
    (i : Nat) (hi : i < pkgs.length) (n v : String)
    (h1 : splitHashField (pkgs.getD i ⟨"", "", none⟩).hash = some (n, v))
    (h2 : H.known n = false) :
    (pkgs.map (downloadOutcome H net)).getD i (Outcome.failure "") =
      Outcome.failure ("ValueError: unsupported hash type " ++ n) ∧
    errLineOf ((pkgs.map (downloadOutcome H net)).getD i (Outcome.failure "")) =
      some ("[error]Error: " ++ ("ValueError: unsupported hash type " ++ n)) ∧
    (∃ r : Run,
      downloadPackages H net true true dest fs0 pkgs = Except.ok r ∧
      r.outcomes = pkgs.map (downloadOutcome H net) ∧
      r.errorLines = (pkgs.map (downloadOutcome H net)).filterMap errLineOf) ∧
    (∀ j, j < pkgs.length → j ≠ i →
      (pkgs.map (downloadOutcome H net)).getD j (Outcome.failure "") =
        downloadOutcome H net (pkgs.getD j ⟨"", "", none⟩)) := by
  have hout :
      (pkgs.map (downloadOutcome H net)).getD i (Outcome.failure "") =
        Outcome.failure ("ValueError: unsupported hash type " ++ n) := by
    rw [List.getD_eq_getElem _ _ (by simpa using hi), List.getElem_map]
    rw [List.getD_eq_getElem _ _ hi] at h1
    unfold downloadOutcome
    rw [downloadPackage_badAlgo H _ _ n v h1 h2]
  refine ⟨hout, ?_, ?_, ?_⟩
  · rw [hout]
    rfl
  · refine ⟨{ outcomes := pkgs.map (downloadOutcome H net)
              fs := (runFold H net fs0 pkgs).fs
              errorLines := (runFold H net fs0 pkgs).errorLines
              successCount := (runFold H net fs0 pkgs).successCount
              completed := (runFold H net fs0 pkgs).completed
              summary := summaryOf (runFold H net fs0 pkgs).successCount dest },
      rfl, rfl, ?_⟩
    simpa using runFold_errorLines H net fs0 pkgs
  · intro j hj _
    rw [List.getD_eq_getElem _ _ (by simpa using hj), List.getElem_map,
      List.getD_eq_getElem _ _ hj]

/-- C4 witness: the two-record batch whose second record names `md5`. -/
theorem c4_unknown_algorithm_isolated_witness :
    (1 < pkgsBadAlgo.length ∧
      splitHashField (pkgsBadAlgo.getD 1 ⟨"", "", none⟩).hash =
        some ("md5", "00") ∧
      sumHashlib.known "md5" = false) ∧
    (pkgsBadAlgo.map (downloadOutcome sumHashlib netScenario)).getD 1
        (Outcome.failure "") =
      Outcome.failure ("ValueError: unsupported hash type " ++ "md5") :=
  ⟨⟨by decide, rfl, rfl⟩,
    (c4_unknown_algorithm_isolated sumHashlib netScenario "dest" []
      pkgsBadAlgo 1 (by decide) "md5" "00" rfl rfl).1⟩

/-- C5: the body is processed in fixed 8192-byte chunks (all chunks at most
8192 bytes, every chunk but the last exactly 8192, and together they are
exactly the body); the streaming loop (digest update then file write per
chunk) occurs contiguously inside the trace; the whole body is both hashed
and written; at every trace prefix the bytes written are a prefix of the
bytes hashed and of the body; and no proper (interrupted) prefix of the
trace contains the final comparison step, which a Success outcome requires
as the very last step of the full trace. -/
theorem c5_chunked_stream_discipline (H : Hashlib) (s : Nat)
    (body : List Byte) (pkg : Package) (n v : String)
    (h1 : splitHashField pkg.hash = some (n, v)) (h2 : H.known n = true)
    (h3 : is2xx s = true) :
    (chunksOf 8192 body).flatten = body ∧
    (∀ c ∈ chunksOf 8192 body, c.length ≤ 8192) ∧
    (∀ i, i + 1 < (chunksOf 8192 body).length →
      ((chunksOf 8192 body).getD i []).length = 8192) ∧
    (∃ t₁ t₂, downloadTrace H (s, body) pkg =
      t₁ ++ streamSteps (chunksOf 8192 body) ++ t₂) ∧
    hashedBytes (downloadTrace H (s, body) pkg) = body ∧
    writtenBytes (downloadTrace H (s, body) pkg) = body ∧
    (∀ pre, pre <+: downloadTrace H (s, body) pkg →
      writtenBytes pre <+: hashedBytes pre ∧ writtenBytes pre <+: body) ∧
    (∀ pre, pre <+: downloadTrace H (s, body) pkg →
      pre ≠ downloadTrace H (s, body) pkg →
      ∀ e a, Step.finalCompare e a ∉ pre) ∧
    ((downloadPackage H (s, body) pkg).outcome = Outcome.success →
      (downloadTrace H (s, body) pkg).getLast? =
        some (Step.finalCompare v (H.digestFull n body))) := by
  have hfl : (chunksOf 8192 body).flatten = body :=
    chunksOf_flatten 8192 (by omega) body
  have htr := downloadTrace_eq H s body pkg n v h1 h2 h3
  have hbytesA :
      hashedBytes [Step.splitName n v, Step.newHasher n,
          Step.fopen pkg.destName, Step.statusCheck s] = [] ∧
      writtenBytes [Step.splitName n v, Step.newHasher n,
          Step.fopen pkg.destName, Step.statusCheck s] = [] :=
    noStream_bytes_nil (head4_noStream n v pkg.destName s)
  have hbytesB :
      hashedBytes [Step.fclose, Step.finalCompare v (H.digestFull n body)] = [] ∧
      writtenBytes [Step.fclose, Step.finalCompare v (H.digestFull n body)] = [] :=
    noStream_bytes_nil (tail2_noStream v (H.digestFull n body))
  refine ⟨hfl, chunksOf_mem_length 8192 body,
    fun i hi => chunksOf_getD_length 8192 (by omega) body i hi,
    ⟨_, _, htr⟩, ?_, ?_,
    downloadTrace_discipline H s body pkg n v h1 h2 h3,
    downloadTrace_no_mid_finalCompare H s body pkg n v h1 h2 h3, ?_⟩
  · rw [htr, hashedBytes_append, hashedBytes_append, hbytesA.1, hbytesB.1,
      streamSteps_hashedBytes, hfl]
    simp
  · rw [htr, writtenBytes_append, writtenBytes_append, hbytesA.2, hbytesB.2,
      streamSteps_writtenBytes, hfl]
    simp
  · intro _
    rw [htr]
    have hsplit :
        [Step.splitName n v, Step.newHasher n, Step.fopen pkg.destName,
            Step.statusCheck s] ++
          streamSteps (chunksOf 8192 body) ++
          [Step.fclose, Step.finalCompare v (H.digestFull n body)] =
        ([Step.splitName n v, Step.newHasher n, Step.fopen pkg.destName,
            Step.statusCheck s] ++
          streamSteps (chunksOf 8192 body) ++ [Step.fclose]) ++
          [Step.finalCompare v (H.digestFull n body)] := by
      simp
    rw [hsplit, List.getLast?_concat]

/-- C5 witness: the discipline at a concrete one-chunk record. -/
theorem c5_chunked_stream_discipline_witness :
    (splitHashField "sum8:05" = some ("sum8", "05") ∧
      sumHashlib.known "sum8" = true ∧ is2xx 200 = true) ∧
    (chunksOf 8192 [5]).flatten = [5] :=
  ⟨⟨rfl, rfl, rfl⟩,
    (c5_chunked_stream_discipline sumHashlib 200 [5]
      ⟨"u/a.whl", "sum8:05", some "a.whl"⟩ "sum8" "05" rfl rfl rfl).1⟩

/-- C6: on a final-digest mismatch the record's outcome is a Failure whose
detail names the filename, the expected digest and the actual digest, and
the fully-written destination file is kept: the run's filesystem still
receives the file with the complete downloaded content. -/
theorem c6_mismatch_detail_file_kept (H : Hashlib)
    (net : String → Nat × List Byte) (s : Nat) (body : List Byte)
    (pkg : Package) (n v f : String)
    (h1 : splitHashField pkg.hash = some (n, v)) (h2 : H.known n = true)
    (h3 : is2xx s = true) (h4 : pkg.file = some f)
    (h5 : H.digestFull n body ≠ v) (hnet : net pkg.url = (s, body)) :
    downloadPackage H (s, body) pkg =
      ⟨Outcome.failure ("Hash value of " ++ f ++ " doesn\x27t match. Expected: "
          ++ v ++ ", got: " ++ H.digestFull n body),
        some (f, body)⟩ ∧
    (∀ st : RunState, (runStep H net st pkg).fs = writeFile st.fs f body) := by
  have hmain := downloadPackage_mismatch H s body pkg n v f h1 h2 h3 h4 h5
  refine ⟨hmain, fun st => ?_⟩
  unfold runStep
  rw [hnet, hmain]

/-- C6 witness: the mismatched `c.whl` record of the scenario. -/
theorem c6_mismatch_detail_file_kept_witness :
    (splitHashField "sum8:ff" = some ("sum8", "ff") ∧
      sumHashlib.digestFull "sum8" [9] ≠ "ff" ∧
      netScenario "u/c.whl" = (200, [9])) ∧
    downloadPackage sumHashlib (200, [9]) ⟨"u/c.whl", "sum8:ff", some "c.whl"⟩ =
      ⟨Outcome.failure ("Hash value of " ++ "c.whl"
          ++ " doesn\x27t match. Expected: " ++ "ff" ++ ", got: "
          ++ sumHashlib.digestFull "sum8" [9]),
        some ("c.whl", [9])⟩ :=
  ⟨⟨rfl, by decide, rfl⟩,
    (c6_mismatch_detail_file_kept sumHashlib netScenario 200 [9]
      ⟨"u/c.whl", "sum8:ff", some "c.whl"⟩ "sum8" "ff" "c.whl" rfl rfl rfl rfl
      (by decide) rfl).1⟩

/-- C7: when the destination directory is absent the coordinator's first
event is the recursive mkdir, so it precedes every task submission; and
when that mkdir fails the whole run is the error, with no submission event
and no per-record outcome. -/
theorem c7_mkdir_first_or_fatal (H : Hashlib) (net : String → Nat × List Byte)
    (destExists mkdirOk : Bool) (dest : String)
    (fs0 : List (String × List Byte)) (pkgs : List Package)
    (hd : destExists = false) :
    (coordTrace H net destExists mkdirOk dest fs0 pkgs).head? =
      some CoordEvent.mkdirParents ∧
    (∀ j, ((coordTrace H net destExists mkdirOk dest fs0 pkgs).getD j
        CoordEvent.mkdirParents).isSubmit = true → 0 < j) ∧
    (mkdirOk = false →
      downloadPackages H net destExists mkdirOk dest fs0 pkgs =
        Except.error "OSError: cannot create destination directory" ∧
      coordTrace H net destExists mkdirOk dest fs0 pkgs =
        [CoordEvent.mkdirParents]) := by
  subst hd
  refine ⟨?_, ?_, ?_⟩
  · simp [coordTrace]
  · intro j hsub
    cases j with
    | zero =>
        rw [coordTrace] at hsub
        simp [CoordEvent.isSubmit] at hsub
    | succ j => omega
  · intro hm
    subst hm
    exact ⟨rfl, rfl⟩

/-- C7 witness: absent directory, successful and failing mkdir. -/
theorem c7_mkdir_first_or_fatal_witness :
    ((false : Bool) = false) ∧
    (coordTrace sumHashlib netScenario false true "dest" [] pkgsScenario).head? =
      some CoordEvent.mkdirParents ∧
    downloadPackages sumHashlib netScenario false false "dest" [] pkgsScenario =
      Except.error "OSError: cannot create destination directory" :=
  ⟨rfl,
    (c7_mkdir_first_or_fatal sumHashlib netScenario false true "dest" []
      pkgsScenario rfl).1,
    ((c7_mkdir_first_or_fatal sumHashlib netScenario false false "dest" []
      pkgsScenario rfl).2.2 rfl).1⟩

theorem filter_isSummary_map_submit (l : List Nat) :
    (l.map CoordEvent.submit).filter CoordEvent.isSummary = [] := by
  induction l with
  | nil => rfl
  | cons x t ih => simp [CoordEvent.isSummary, ih]

theorem filter_isSummary_map_errorLine (l : List String) :
    (l.map CoordEvent.errorLine).filter CoordEvent.isSummary = [] := by
  induction l with
  | nil => rfl
  | cons x t ih => simp [CoordEvent.isSummary, ih]

/-- C8: provided the destination directory exists or can be created, the
coordinator returns normally for every record sequence — however many
records fail — and emits exactly one summary line, stating the number of
succeeded records and the destination path. -/
theorem c8_returns_normally_one_summary (H : Hashlib)
    (net : String → Nat × List Byte) (destExists mkdirOk : Bool)
    (dest : String) (fs0 : List (String × List Byte)) (pkgs : List Package)
    (h : destExists = true ∨ mkdirOk = true) :
    ∃ r : Run,
      downloadPackages H net destExists mkdirOk dest fs0 pkgs =
        Except.ok r ∧
      r.summary = summaryOf r.successCount dest ∧
      r.successCount = r.outcomes.countP Outcome.isSuccess ∧
      (coordTrace H net destExists mkdirOk dest fs0 pkgs).filter
          CoordEvent.isSummary =
        [CoordEvent.summaryLine (summaryOf r.successCount dest)] := by
  have hcond : (decide (destExists = false) && decide (mkdirOk = false)) = false := by
    rcases h with rfl | rfl <;> simp
  refine ⟨{ outcomes := pkgs.map (downloadOutcome H net)
            fs := (runFold H net (if destExists then fs0 else []) pkgs).fs
            errorLines :=
              (runFold H net (if destExists then fs0 else []) pkgs).errorLines
            successCount :=
              (runFold H net (if destExists then fs0 else []) pkgs).successCount
            completed :=
              (runFold H net (if destExists then fs0 else []) pkgs).completed
            summary := summaryOf
              (runFold H net (if destExists then fs0 else []) pkgs).successCount
              dest },
    ?_, rfl, ?_, ?_⟩
  · unfold downloadPackages
    simp only [hcond, Bool.false_eq_true, if_false]
  · simp [runFold_successCount]
  · unfold coordTrace
    simp only [hcond, Bool.false_eq_true, if_false, List.filter_append,
      filter_isSummary_map_submit, filter_isSummary_map_errorLine]
    cases destExists <;> simp [CoordEvent.isSummary]

/-- C8 witness: the scenario run, which contains a failing record. -/
theorem c8_returns_normally_one_summary_witness :
    ((true : Bool) = true ∨ (true : Bool) = true) ∧
    ∃ r : Run,
      downloadPackages sumHashlib netScenario true true "dest" [] pkgsScenario =
        Except.ok r ∧
      r.summary = summaryOf r.successCount "dest" := by
  obtain ⟨r, hr1, hr2, _, _⟩ :=
    c8_returns_normally_one_summary sumHashlib netScenario true true "dest" []
      pkgsScenario (Or.inl rfl)
  exact ⟨Or.inl rfl, r, hr1, hr2⟩

/-- C10: on a non-2xx response the destination file has already been opened
(created empty) before the status check: the trace opens the file at
position 2 and checks the status at position 3, and the per-record Failure
leaves the empty file named by the record's `file` field. -/
theorem c10_open_before_status_check (H : Hashlib) (s : Nat)
    (body : List Byte) (pkg : Package) (n v f : String)
    (h1 : splitHashField pkg.hash = some (n, v)) (h2 : H.known n = true)
    (h3 : is2xx s = false) (h4 : pkg.file = some f) :
    downloadPackage H (s, body) pkg =
      ⟨Outcome.failure ("HTTPStatusError: status " ++ toString s
          ++ " for url " ++ pkg.url), some (f, [])⟩ ∧
    downloadTrace H (s, body) pkg =
      [Step.splitName n v, Step.newHasher n, Step.fopen f,
        Step.statusCheck s] ∧
    (downloadTrace H (s, body) pkg).getD 2 Step.fclose = Step.fopen f ∧
    (downloadTrace H (s, body) pkg).getD 3 Step.fclose = Step.statusCheck s := by
  have hdn : pkg.destName = f := by
    unfold Package.destName
    rw [h4]
    rfl
  obtain ⟨hres, htr⟩ := downloadPackage_badStatus H s body pkg n v h1 h2 h3
  rw [hdn] at hres htr
  refine ⟨hres, htr, ?_, ?_⟩ <;> rw [htr] <;> rfl

/-- C10 witness: a 404 response at a concrete record. -/
theorem c10_open_before_status_check_witness :
    (splitHashField "sum8:05" = some ("sum8", "05") ∧ is2xx 404 = false) ∧
    downloadPackage sumHashlib (404, [5]) ⟨"u/a.whl", "sum8:05", some "a.whl"⟩ =
      ⟨Outcome.failure ("HTTPStatusError: status " ++ toString 404
          ++ " for url " ++ "u/a.whl"), some ("a.whl", [])⟩ :=
  ⟨⟨rfl, rfl⟩,
    (c10_open_before_status_check sumHashlib 404 [5]
      ⟨"u/a.whl", "sum8:05", some "a.whl"⟩ "sum8" "05" "a.whl"
      rfl rfl rfl rfl).1⟩

end PdmDownload
